import Mathlib

/-!
Shallow embedding of the `cargo_avto` reconciliation pipeline
(`src/app/cmd/main.go`) together with theorems checking the
natural-language specification against it.

All Go strings are modelled as `List Char`; Go `int` is modelled as `ℤ`;
fallible Go functions returning `(value, error)` are modelled as `Option`.
External collaborators (the browser scraper, the lookup CSV tables, the
card-list HTTP endpoint) are modelled as oracle functions supplied through
an `Env`/oracle parameter, exactly at the boundary where the Go code calls
them.
-/

/-- Numeric value of a single decimal digit character, as in Go byte
arithmetic (`c - '0'`). -/
def digToNat (c : Char) : Nat := c.toNat - 48

/-- Value of a digit string, most significant digit first
(the accumulator loop used by `strconv.Atoi` on digit characters). -/
def natOfDigits (l : List Char) : Nat :=
  l.foldl (fun a c => 10 * a + digToNat c) 0

/-- `true` iff the list is nonempty and consists only of decimal digits. -/
def allDigits (l : List Char) : Bool :=
  !l.isEmpty && l.all (fun c => c.isDigit)

/-- Model of Go `strconv.Atoi`: an optional sign followed by at least one
digit, consuming the whole string; anything else is an error (`none`). -/
def atoiL (l : List Char) : Option ℤ :=
  match l with
  | [] => none
  | c :: rest =>
    if c = '+' then
      (if allDigits rest then some ((natOfDigits rest : ℤ)) else none)
    else if c = '-' then
      (if allDigits rest then some (-(natOfDigits rest : ℤ)) else none)
    else
      (if allDigits (c :: rest) then some ((natOfDigits (c :: rest) : ℤ)) else none)

/-- Decimal digits of `n`, most significant first, via repeated division;
`fuel` bounds the recursion (any `fuel > n` is enough). -/
def natDigsAux : Nat → Nat → List Char
  | 0, _ => []
  | fuel + 1, n =>
    if n < 10 then [Char.ofNat (48 + n)]
    else natDigsAux fuel (n / 10) ++ [Char.ofNat (48 + n % 10)]

/-- Decimal representation of a natural number (`strconv.Itoa` on
nonnegative values). -/
def natDigs (n : Nat) : List Char := natDigsAux (n + 1) n

/-- Model of Go `strconv.Itoa` / `fmt.Sprintf("%d", ·)` on `int`. -/
def intToDec (n : ℤ) : List Char :=
  if n < 0 then '-' :: natDigs n.natAbs else natDigs n.natAbs

/-- Powers of ten by plain recursion (kernel-reducible). -/
def pow10 : Nat → Nat
  | 0 => 1
  | n + 1 => 10 * pow10 n

/-- Unsigned decimal-literal parser: `digits`, `digits.`, `.digits` or
`digits.digits`, evaluated exactly as a rational.  This models the decimal
forms accepted by Go `strconv.ParseFloat` (scientific/hex/infinity forms do
not occur in the scraped price strings and are outside the model). -/
def parseDecCore (l : List Char) : Option ℚ :=
  let ip := l.takeWhile (fun c => c.isDigit)
  let rest := l.dropWhile (fun c => c.isDigit)
  match rest with
  | [] => if ip.isEmpty then none else some (mkRat (natOfDigits ip) 1)
  | '.' :: fr =>
    if fr.all (fun c => c.isDigit) && !(ip.isEmpty && fr.isEmpty) then
      some (mkRat ((natOfDigits ip * pow10 fr.length + natOfDigits fr : Nat) : ℤ)
        (pow10 fr.length))
    else none
  | _ => none

/-- Signed decimal parser: model of `strconv.ParseFloat` on the decimal
grammar, with the value taken exactly (as a rational). -/
def parseDecL (l : List Char) : Option ℚ :=
  match l with
  | '+' :: rest => parseDecCore rest
  | '-' :: rest => (parseDecCore rest).map (fun q => -q)
  | _ => parseDecCore l

/-- Executable ceiling of a rational (`math.Ceil` followed by the `int`
conversion); proved equal to Mathlib's `⌈·⌉` in `ratCeil_eq_ceil` below. -/
def ratCeil (q : ℚ) : ℤ := -((-q.num) / (q.den : ℤ))

/-- Model of `convertAndMultiply` (main.go:594): parse the price string as
a decimal, round it up with `math.Ceil`, parse the multiplier with
`strconv.Atoi`, and multiply; a parse failure of either argument yields an
error (`none`). -/
def convertAndMultiplyL (priceStr multiplierStr : List Char) : Option ℤ :=
  match parseDecL priceStr with
  | none => none
  | some price =>
    let roundedPrice : ℤ := ratCeil price
    match atoiL multiplierStr with
    | none => none
    | some multiplier => some (roundedPrice * multiplier)

/-- Model of `calcAmount` (main.go:708): the literal chain of
`availableCount`/`pcs` tests from the Go source. -/
def calcAmount (pcs availableCount : ℤ) : ℤ :=
  if availableCount = 5 ∧ pcs = 100 then 1
  else if availableCount = 5 ∧ pcs = 50 then 1
  else if availableCount = 5 ∧ pcs = 30 then 2
  else if availableCount = 5 ∧ pcs = 10 then 5
  else if availableCount = 4 ∧ pcs = 30 then 1
  else if availableCount = 4 ∧ pcs = 10 then 3
  else if availableCount = 5 ∧ pcs = 1 then 5
  else if availableCount = 5 ∧ pcs = 3 then 3
  else if availableCount = 5 ∧ pcs = 5 then 2
  else 0

/-- The stock table of `calcAmount` as extensional data: keys are
`(availabilityLevel, packSize)` pairs. -/
def amountTable : List ((ℤ × ℤ) × ℤ) :=
  [((5, 100), 1), ((5, 50), 1), ((5, 30), 2), ((5, 10), 5),
   ((4, 30), 1), ((4, 10), 3), ((5, 1), 5), ((5, 3), 3), ((5, 5), 2)]

/-- First-match lookup in a pair table, defaulting to `0`. -/
def lookupPairs (ac pcs : ℤ) : List ((ℤ × ℤ) × ℤ) → ℤ
  | [] => 0
  | (k, v) :: rest => if (ac, pcs) = k then v else lookupPairs ac pcs rest

/-- The spec-side reading of the Stock Amount Resolver: an explicit finite
table of recognized `(availability, packSize)` pairs, any unmatched pair
mapping to `0`. -/
def amountLookup (ac pcs : ℤ) : ℤ := lookupPairs ac pcs amountTable

/-- Split a character list at every occurrence of a separator predicate;
models Go `strings.Split` (empty fields preserved). -/
def splitBy (p : Char → Bool) : List Char → List (List Char)
  | [] => [[]]
  | c :: rest =>
    let r := splitBy p rest
    if p c then [] :: r
    else
      match r with
      | [] => [[c]]
      | h :: t => (c :: h) :: t

/-- `strings.Split(s, "_")`, the vendor-code segmentation. -/
def splitU (l : List Char) : List (List Char) := splitBy (fun c => c == '_') l

/-- Model of Go `strings.Fields`: maximal whitespace-free runs. -/
def goFields (l : List Char) : List (List Char) :=
  (splitBy (fun c => c.isWhitespace) l).filter (fun w => !w.isEmpty)

/-- Model of Go `strings.TrimSpace`. -/
def trimC (l : List Char) : List Char :=
  ((l.dropWhile (fun c => c.isWhitespace)).reverse.dropWhile
    (fun c => c.isWhitespace)).reverse

/-- Model of Go `strings.ReplaceAll(s, string(c), "")`. -/
def removeAllC (c : Char) (l : List Char) : List Char :=
  l.filter (fun x => !(x == c))

/-- Does `l` start with `p`?  Used by the substring test. -/
def startsWithSeg : List Char → List Char → Bool
  | [], _ => true
  | _ :: _, [] => false
  | p :: ps, c :: cs => p == c && startsWithSeg ps cs

/-- Model of Go `strings.Contains`. -/
def hasSeg (pat : List Char) : List Char → Bool
  | [] => pat.isEmpty
  | c :: rest => startsWithSeg pat (c :: rest) || hasSeg pat rest

/-- One line of `download.csv` (`DownloadRow`, main.go:267): fixed price
and quantity for a card identifier. -/
structure DownloadRow where
  price : ℤ
  quantity : ℤ
deriving DecidableEq

/-- A product card from the catalog API (`Card`, main.go:473); `sizes`
holds each size variant's list of SKU codes. -/
structure Card where
  nmID : ℤ
  vendorCode : List Char
  sizes : List (List (List Char))
deriving DecidableEq

/-- A persisted `products` row (schema in `createTable`, main.go:425). -/
structure Row where
  nmID : ℤ
  vendorCode : List Char
  pcs : ℤ
  productID : List Char
  sku : List Char
  availableCount : ℤ
  cost : ℤ
deriving DecidableEq

/-- The argument bundle of `saveToDatabase` (`SaveParams`, main.go:661). -/
structure SaveParams where
  nmID : ℤ
  vendorCode : List Char
  pcs : ℤ
  productID : List Char
  availableCountStr : List Char
  cost : ℤ
deriving DecidableEq

/-- Does row `x` carry the composite key `(productID, pcs)`?  This is the
`UNIQUE (product_id, pcs)` / `ON CONFLICT (product_id, pcs)` key. -/
def sameKey (pid : List Char) (pcs : ℤ) (x : Row) : Bool :=
  x.productID == pid && x.pcs == pcs

/-- Upsert semantics of the SQL statement in `saveToDatabase`
(main.go:682): insert the row, or on a conflict of the composite key
overwrite every other field of the conflicting row. -/
def upsertRow (store : List Row) (r : Row) : List Row :=
  if store.any (sameKey r.productID r.pcs) then
    store.map (fun x => if sameKey r.productID r.pcs x then r else x)
  else store ++ [r]

/-- Model of `saveToDatabase` (main.go:672): `strconv.Atoi` the available
count, coercing a parse failure to `0` (with a log line), then upsert. -/
def saveToDatabase (store : List Row) (p : SaveParams) (sku : List Char) : List Row :=
  let availableCount : ℤ := (atoiL p.availableCountStr).getD 0
  upsertRow store
    ⟨p.nmID, p.vendorCode, p.pcs, p.productID, sku, availableCount, p.cost⟩

/-- At most one row per composite key: the invariant the `UNIQUE`
constraint keeps on the `products` table. -/
def keyUnique (store : List Row) : Prop :=
  store.Pairwise (fun a b => a.productID ≠ b.productID ∨ a.pcs ≠ b.pcs)

/-- The literal characters of `"bubblebags_1"`, the fixed part of the
pattern `^bubblebags_1\d+_\d+$` tested in `scrapeProductData`
(main.go:507). -/
def bubPre : List Char :=
  ['b', 'u', 'b', 'b', 'l', 'e', 'b', 'a', 'g', 's', '_', '1']

/-- Executable equivalent of `regexp.MatchString("^bubblebags_1\d+_\d+$", s)`:
the literal prefix `bubblebags_1`, one or more digits, an underscore, one
or more digits. -/
def matchBubblebags1L (l : List Char) : Bool :=
  l.take bubPre.length == bubPre &&
    (let rest := l.drop bubPre.length
     let ds1 := rest.takeWhile (fun c => c.isDigit)
     let rest2 := rest.dropWhile (fun c => c.isDigit)
     !ds1.isEmpty &&
       (match rest2 with
        | '_' :: ds2 => allDigits ds2
        | _ => false))

/-- The `strings.LastIndex(baseKey, "_")` truncation of `scrapeProductData`
(main.go:512): cut the string at its last underscore; if there is no
underscore, keep it unchanged. -/
def bagBaseKeyL (l : List Char) : List Char :=
  match l.reverse.dropWhile (fun c => c ≠ '_') with
  | [] => l
  | _ :: rest => rest.reverse

/-- The scraped in-stock marker `"В наличии"` (main.go:540). -/
def inStockSeg : List Char := ['В', ' ', 'н', 'а', 'л', 'и', 'ч', 'и', 'и']

/-- Base URL of the legacy catalog (main.go:263). -/
def catalogBase : List Char := "https://sp.cargo-avto.ru/catalog/".toList

/-- External collaborators of the pipeline, passed as oracles:
`download` is the in-memory `downloadCSVData` table, `urlMap` the
`bubblebagsURLMap` table, and `scrapeBag`/`scrapeBox` stand for the two
browser-automation extractions (URL to the raw texts each branch reads;
`none` models a `chromedp` error). -/
structure Env where
  download : ℤ → Option DownloadRow
  urlMap : List Char → Option (List Char)
  scrapeBag : List Char → Option (List Char × List Char)
  scrapeBox : List Char → Option (List Char × ℤ)

/-- Model of `scrapeProductData` (main.go:505): for the `bubblebags_1...`
family, derive the lookup key by dropping the final underscore segment and
consult `urlMap`; a missing entry yields `price = "0"`,
`availableCount = "0"` with no error.  Otherwise scrape the legacy catalog
page addressed by the second vendor-code segment.  The returned pair is
`(price, availableCount)` as strings, `none` a scrape error. -/
def scrapeProductData (env : Env) (vc : List Char) : Option (List Char × List Char) :=
  if matchBubblebags1L vc then
    let baseKey := bagBaseKeyL vc
    match env.urlMap baseKey with
    | none => some (['0'], ['0'])
    | some url =>
      match env.scrapeBag url with
      | none => none
      | some raw =>
        let availableCount : ℤ := if hasSeg inStockSeg raw.1 then 5 else 0
        match goFields raw.2 with
        | [] => some (['0'], intToDec availableCount)
        | rawPrice :: _ =>
          some (trimC (removeAllC '№' rawPrice), intToDec availableCount)
  else
    let parts := splitU vc
    if parts.length < 2 then none
    else
      let url := catalogBase ++ parts.getD 1 [] ++ ['/']
      match env.scrapeBox url with
      | none => none
      | some pc =>
        some (removeAllC ' ' (removeAllC 'p' (trimC pc.1)), intToDec pc.2)

/-- Pack size on the fixed-price branch (main.go:325): parse the third
vendor-code segment if present, defaulting to `1`; note this branch never
consults `cfg.UsePcs`. -/
def fpPcs (vc : List Char) : ℤ :=
  if 2 < (splitU vc).length then
    match atoiL ((splitU vc).getD 2 []) with
    | some v => v
    | none => 1
  else 1

/-- Pack size on the legacy branch (main.go:378): parse the third segment
only when it is present and `cfg.UsePcs` is set, defaulting to `1`. -/
def legacyPcs (usePcs : Bool) (vc : List Char) : ℤ :=
  if 2 < (splitU vc).length ∧ usePcs = true then
    match atoiL ((splitU vc).getD 2 []) with
    | some v => v
    | none => 1
  else 1

/-- The pipeline configuration (`Config`, main.go:255); the regular
expression lists are modelled extensionally as boolean matchers. -/
structure Cfg where
  fpMatchers : List (List Char → Bool)
  vcMatchers : List (List Char → Bool)
  usePcs : Bool

/-- The process-lifetime `productDataCache` (main.go:302): product key to
`(price, availableCount)`. -/
abbrev Cache : Type := List (List Char × (List Char × List Char))

/-- Go map read (first write wins because inserts prepend). -/
def cacheFind (cache : Cache) (k : List Char) : Option (List Char × List Char) :=
  (List.find? (fun e => e.1 == k) cache).map (fun e => e.2)

/-- Outcome of handling one card: `halt` models the `panic` (main.go:368),
`next` carries the store and cache for the rest of the run. -/
inductive StepRes where
  | halt : StepRes
  | next : List Row → Cache → StepRes
deriving DecidableEq

/-- `extractSKUs` (main.go:493): flatten each card's size SKU lists into a
map keyed by `nmID`; a later card with the same `nmID` overwrites, and a
missing key reads as the empty list (Go nil slice). -/
def extractSKUs (cards : List Card) : ℤ → List (List Char) :=
  fun n =>
    match List.find? (fun c => c.nmID == n) cards.reverse with
    | some c => c.sizes.foldl (fun acc sz => acc ++ sz) []
    | none => []

/-- One iteration of the card loop in `Process` (main.go:306-419),
faithful to the branch order of the source: fixed-price family first
(missing `download.csv` entry ⇒ skip; pack size parsed unconditionally;
SKU count ≠ 1 ⇒ skip; otherwise upsert `price * pcs`), then the
vendor-code families (no match ⇒ skip; SKU count ≠ 1 ⇒ `panic`; malformed
vendor code ⇒ skip; consult the cache, else scrape — a scrape error skips;
cost via `convertAndMultiply`, a conversion error skips; otherwise
upsert). -/
def processCard (cfg : Cfg) (env : Env) (skuMap : ℤ → List (List Char))
    (store : List Row) (cache : Cache) (card : Card) : StepRes :=
  if cfg.fpMatchers.any (fun m => m card.vendorCode) then
    match env.download card.nmID with
    | none => .next store cache
    | some row =>
      let pcsInt := fpPcs card.vendorCode
      let skuList := skuMap card.nmID
      if skuList.length = 1 then
        let finalCost := row.price * pcsInt
        .next (saveToDatabase store
          ⟨card.nmID, card.vendorCode, pcsInt, intToDec card.nmID,
            intToDec row.quantity, finalCost⟩ (skuList.getD 0 [])) cache
      else .next store cache
  else if cfg.vcMatchers.any (fun m => m card.vendorCode) then
    let skus := skuMap card.nmID
    if skus.length = 1 then
      let parts := splitU card.vendorCode
      if parts.length < 2 then .next store cache
      else
        let productID := parts.getD 1 []
        let pcsInt := legacyPcs cfg.usePcs card.vendorCode
        match cacheFind cache productID with
        | some productData =>
          (match convertAndMultiplyL productData.1 (intToDec pcsInt) with
           | none => .next store cache
           | some cost =>
             .next (saveToDatabase store
               ⟨card.nmID, card.vendorCode, pcsInt, productID,
                 productData.2, cost⟩ (skus.getD 0 [])) cache)
        | none =>
          match scrapeProductData env card.vendorCode with
          | none => .next store cache
          | some productData =>
            let cache2 : Cache := (productID, productData) :: cache
            (match convertAndMultiplyL productData.1 (intToDec pcsInt) with
             | none => .next store cache2
             | some cost =>
               .next (saveToDatabase store
                 ⟨card.nmID, card.vendorCode, pcsInt, productID,
                   productData.2, cost⟩ (skus.getD 0 [])) cache2)
    else .halt
  else .next store cache

/-- The card loop of `Process`: run each card in order; a `panic` aborts
the whole run (`none`). -/
def runCards (cfg : Cfg) (env : Env) (skuMap : ℤ → List (List Char)) :
    List Card → List Row → Cache → Option (List Row)
  | [], store, _ => some store
  | card :: rest, store, cache =>
    match processCard cfg env skuMap store cache card with
    | .halt => none
    | .next store2 cache2 => runCards cfg env skuMap rest store2 cache2

/-- `Process` after fetching (main.go:272): fresh store (the database file
is deleted and the table recreated), fresh cache, then the card loop. -/
def runPipeline (cfg : Cfg) (env : Env) (cards : List Card) : Option (List Row) :=
  runCards cfg env (extractSKUs cards) cards [] []

/-- Pagination cursor of the catalog API (main.go:486). -/
structure Cursor where
  updatedAt : List Char
  nmID : ℤ
deriving DecidableEq

/-- One catalog API response: a batch of cards plus the next cursor. -/
structure FetchResp where
  cards : List Card
  cursor : Cursor
deriving DecidableEq

/-- A response on which the `fetchAllCards` loop stops: a transport/parse
error (`none`), an empty batch, or a terminal cursor. -/
def isTerminalResp : Option FetchResp → Bool
  | none => true
  | some r => r.cards.isEmpty || r.cursor.updatedAt.isEmpty || r.cursor.nmID == 0

/-- The pagination loop of `fetchAllCards` (main.go:446) over a response
oracle indexed by request number: an error returns the accumulated cards;
an empty batch returns them; otherwise append the batch and stop if the
new cursor is terminal.  `fuel` bounds the iteration count so the function
is total; the termination theorem shows any terminal response leaves the
result independent of sufficient fuel. -/
def fetchGo (oracle : Nat → Option FetchResp) : Nat → Nat → List Card → Option (List Card)
  | _, 0, _ => none
  | idx, fuel + 1, acc =>
    match oracle idx with
    | none => some acc
    | some resp =>
      if resp.cards.isEmpty then some acc
      else
        let acc2 := acc ++ resp.cards
        if resp.cursor.updatedAt.isEmpty || resp.cursor.nmID == 0 then some acc2
        else fetchGo oracle (idx + 1) fuel acc2

/-- `fetchAllCards` (main.go:446): start from the empty cursor state with
no cards accumulated. -/
def fetchAllCards (oracle : Nat → Option FetchResp) (fuel : Nat) : Option (List Card) :=
  fetchGo oracle 0 fuel []

/-- Executable equivalent of the fixed-price pattern `^soil_\d+_\d+$`
(main.go:54), used for concrete runs. -/
def matchSoil (l : List Char) : Bool :=
  match splitU l with
  | [w, d1, d2] => w == ['s', 'o', 'i', 'l'] && allDigits d1 && allDigits d2
  | _ => false

/-- Executable equivalent of the legacy pattern `^box_\d+_\d+$`
(main.go:64), used for concrete runs. -/
def matchBox (l : List Char) : Bool :=
  match splitU l with
  | [w, d1, d2] => w == ['b', 'o', 'x'] && allDigits d1 && allDigits d2
  | _ => false

/-- Vendor code `"soil_500_3"` of the fixed-price family. -/
def soilVC : List Char := ['s', 'o', 'i', 'l', '_', '5', '0', '0', '_', '3']

/-- Vendor code `"bubblebags_19999_10"` of the bag family. -/
def bagVC : List Char :=
  ['b', 'u', 'b', 'b', 'l', 'e', 'b', 'a', 'g', 's', '_', '1', '9', '9', '9', '9', '_', '1', '0']

/-- Vendor code `"box_9_9"` of the legacy family. -/
def boxVC : List Char := ['b', 'o', 'x', '_', '9', '_', '9']

/-- A configuration with the fixed-price family `soil`, the legacy
families `box` and `bubblebags_1...`, and unit counting enabled, as in
`main` (main.go:48). -/
def cfgPcs : Cfg := ⟨[matchSoil], [matchBox, matchBubblebags1L], true⟩

/-- The same configuration with unit counting disabled. -/
def cfgNoPcs : Cfg := ⟨[matchSoil], [matchBox, matchBubblebags1L], false⟩

/-- An environment whose `download.csv` table maps card 500 to
`(price = 40, quantity = 12)` and whose other collaborators are empty. -/
def envFp : Env :=
  ⟨fun n => if n = 500 then some ⟨40, 12⟩ else none,
   fun _ => none, fun _ => none, fun _ => none⟩

/-- An environment with every table empty and every scrape failing. -/
def envNone : Env := ⟨fun _ => none, fun _ => none, fun _ => none, fun _ => none⟩

/-- Fixed-price card 500 with no size variants (zero SKUs). -/
def cardFpNoSku : Card := ⟨500, soilVC, []⟩

/-- Fixed-price card 500 with exactly one SKU `"s1"`. -/
def cardFpOneSku : Card := ⟨500, soilVC, [[['s', '1']]]⟩

/-- Bag-family card 700 with exactly one SKU `"sk"`. -/
def cardBagOneSku : Card := ⟨700, bagVC, [[['s', 'k']]]⟩

/-- Legacy-family card 1 with no size variants (zero SKUs). -/
def cardBoxNoSku : Card := ⟨1, boxVC, []⟩


/-- The executable ceiling agrees with Mathlib's ceiling on `ℚ`. -/
theorem ratCeil_eq_ceil (q : ℚ) : ratCeil q = ⌈q⌉ := by
  have h1 : ⌊-q⌋ = (-q).num / ((-q).den : ℤ) := Rat.floor_def
  rw [Rat.num_neg_eq_neg_num, Rat.den_neg_eq_den] at h1
  have h2 : ⌊-q⌋ = -⌈q⌉ := Int.floor_neg
  unfold ratCeil
  rw [← h1, h2, neg_neg]

/-- Claim C1: for every price string that parses as a decimal number and
every multiplier string that parses as an integer, `convertAndMultiply`
returns `⌈price⌉ * multiplier` — a genuine ceiling, the least integer at
least the price and below `price + 1` — and it returns no cost whenever
the price string is not numeric. -/
theorem convertAndMultiply_ceiling (priceStr multiplierStr : List Char) :
    (parseDecL priceStr = none → convertAndMultiplyL priceStr multiplierStr = none) ∧
    (∀ q m, parseDecL priceStr = some q → atoiL multiplierStr = some m →
      convertAndMultiplyL priceStr multiplierStr = some (⌈q⌉ * m) ∧
      q ≤ (⌈q⌉ : ℚ) ∧ ((⌈q⌉ : ℚ) < q + 1)) := by
  constructor
  · intro h
    simp [convertAndMultiplyL, h]
  · intro q m hq hm
    refine ⟨?_, Int.le_ceil q, Int.ceil_lt_add_one q⟩
    simp [convertAndMultiplyL, hq, hm, ratCeil_eq_ceil]

/-- Witness for C1 at the spec's two examples: `cost("10.01", 3) = 33`
(ceiling, not nearest) and `cost("10.00", 3) = 30`. -/
theorem convertAndMultiply_ceiling_witness :
    convertAndMultiplyL ['1', '0', '.', '0', '1'] ['3'] = some 33 ∧
    convertAndMultiplyL ['1', '0', '.', '0', '0'] ['3'] = some 30 := by
  constructor
  · have h := ((convertAndMultiply_ceiling ['1', '0', '.', '0', '1'] ['3']).2
      (mkRat 1001 100) 3 (by decide) (by decide)).1
    rw [h, ← ratCeil_eq_ceil]
    decide
  · have h := ((convertAndMultiply_ceiling ['1', '0', '.', '0', '0'] ['3']).2
      (mkRat 10 1) 3 (by decide) (by decide)).1
    rw [h, ← ratCeil_eq_ceil]
    decide

/-- Claim C3: `calcAmount` is exactly the finite `(availability, packSize)`
table `amountTable` with default `0`; in particular the cited entries and
the unmatched pair `(packSize 7, availability 5) = 0`. -/
theorem calcAmount_is_table :
    (∀ pcs ac : ℤ, calcAmount pcs ac = amountLookup ac pcs) ∧
    calcAmount 50 5 = 1 ∧ calcAmount 10 5 = 5 ∧ calcAmount 30 4 = 1 ∧
    calcAmount 7 5 = 0 := by
  refine ⟨?_, by decide, by decide, by decide, by decide⟩
  intro pcs ac
  simp only [calcAmount, amountLookup, amountTable, lookupPairs, Prod.mk.injEq]

/-- A digit character built from a value below ten is a digit and decodes
back to that value. -/
theorem digit_char_spec (m : Nat) (h : m < 10) :
    (Char.ofNat (48 + m)).isDigit = true ∧ digToNat (Char.ofNat (48 + m)) = m := by
  interval_cases m <;> exact ⟨by decide, by decide⟩

/-- Appending one digit multiplies the decoded value by ten and adds it. -/
theorem natOfDigits_append_digit (l : List Char) (c : Char) :
    natOfDigits (l ++ [c]) = 10 * natOfDigits l + digToNat c := by
  simp [natOfDigits, List.foldl_append]

/-- Unpack `allDigits` into its two boolean components. -/
theorem allDigits_parts (l : List Char) (h : allDigits l = true) :
    l.isEmpty = false ∧ l.all (fun c => c.isDigit) = true := by
  simp only [allDigits, Bool.and_eq_true, Bool.not_eq_true'] at h
  exact h

/-- Appending a digit to a digit string keeps `allDigits`. -/
theorem allDigits_append_digit (l : List Char) (c : Char)
    (hl : l.all (fun x => x.isDigit) = true) (hc : c.isDigit = true) :
    allDigits (l ++ [c]) = true := by
  cases l <;> simp_all [allDigits]

/-- With enough fuel, `natDigsAux` prints only digits and round-trips. -/
theorem natDigsAux_spec (fuel : Nat) : ∀ n, n < fuel →
    allDigits (natDigsAux fuel n) = true ∧ natOfDigits (natDigsAux fuel n) = n := by
  induction fuel with
  | zero => intro n h; omega
  | succ f ih =>
    intro n h
    by_cases h10 : n < 10
    · simp only [natDigsAux, if_pos h10]
      constructor
      · simp [allDigits, (digit_char_spec n h10).1]
      · simp [natOfDigits, (digit_char_spec n h10).2]
    · have hdiv : n / 10 < f := by
        have h1 : n / 10 < n := Nat.div_lt_self (by omega) (by omega)
        omega
      obtain ⟨ha, hv⟩ := ih (n / 10) hdiv
      have hm : n % 10 < 10 := Nat.mod_lt _ (by omega)
      simp only [natDigsAux, if_neg h10]
      constructor
      · exact allDigits_append_digit _ _ (allDigits_parts _ ha).2
          (digit_char_spec (n % 10) hm).1
      · rw [natOfDigits_append_digit, hv, (digit_char_spec (n % 10) hm).2]
        omega

/-- `natDigs` prints only digits and round-trips. -/
theorem natDigs_spec (n : Nat) :
    allDigits (natDigs n) = true ∧ natOfDigits (natDigs n) = n :=
  natDigsAux_spec (n + 1) n (Nat.lt_succ_self n)

/-- `strconv.Atoi` accepts any pure digit string. -/
theorem atoiL_digits (l : List Char) (h : allDigits l = true) :
    atoiL l = some ((natOfDigits l : ℤ)) := by
  cases l with
  | nil => simp [allDigits] at h
  | cons c cs =>
    have hc : c.isDigit = true := by
      have := (allDigits_parts _ h).2
      simp only [List.all_cons, Bool.and_eq_true] at this
      exact this.1
    have hp : c ≠ '+' := by
      intro he
      rw [he] at hc
      exact absurd hc (by decide)
    have hm : c ≠ '-' := by
      intro he
      rw [he] at hc
      exact absurd hc (by decide)
    simp [atoiL, hp, hm, h]

/-- `strconv.Atoi` inverts `strconv.Itoa`: the decimal printing of any
integer parses back to it. -/
theorem atoiL_intToDec (n : ℤ) : atoiL (intToDec n) = some n := by
  obtain ⟨ha, hv⟩ := natDigs_spec n.natAbs
  by_cases h : n < 0
  · have hneg : atoiL ('-' :: natDigs n.natAbs) =
        some (-(natOfDigits (natDigs n.natAbs) : ℤ)) := by
      simp [atoiL, ha]
    rw [intToDec, if_pos h, hneg, hv]
    congr 1
    omega
  · simp only [intToDec, if_neg h]
    rw [atoiL_digits _ ha, hv]
    congr 1
    omega

/-- `sameKey` unpacked to propositional equalities. -/
theorem sameKey_iff (pid : List Char) (pcs : ℤ) (x : Row) :
    sameKey pid pcs x = true ↔ x.productID = pid ∧ x.pcs = pcs := by
  simp [sameKey]

/-- A row carries its own composite key. -/
theorem self_sameKey (r : Row) : sameKey r.productID r.pcs r = true := by
  simp [sameKey]

/-- The upserted row is always present afterwards. -/
theorem self_mem_upsertRow (store : List Row) (r : Row) : r ∈ upsertRow store r := by
  unfold upsertRow
  by_cases hany : store.any (sameKey r.productID r.pcs) = true
  · rw [if_pos hany]
    obtain ⟨x, hx, hsk⟩ := List.any_eq_true.mp hany
    exact List.mem_map.mpr ⟨x, hx, by rw [if_pos hsk]⟩
  · rw [if_neg hany]
    simp

/-- On a key-unique store containing the key, the conflict-overwrite pass
leaves exactly the new row under that key. -/
theorem filter_map_upsert (r : Row) : ∀ store : List Row, keyUnique store →
    store.any (sameKey r.productID r.pcs) = true →
    (store.map (fun y => if sameKey r.productID r.pcs y then r else y)).filter
      (sameKey r.productID r.pcs) = [r] := by
  intro store
  induction store with
  | nil => intro _ h; simp at h
  | cons x xs ih =>
    intro hk hany
    rw [keyUnique, List.pairwise_cons] at hk
    obtain ⟨hhead, htail⟩ := hk
    by_cases hx : sameKey r.productID r.pcs x = true
    · have hxkey := (sameKey_iff _ _ _).mp hx
      have htfalse : ∀ b ∈ xs, sameKey r.productID r.pcs b = false := by
        intro b hb
        rw [Bool.eq_false_iff]
        intro hbT
        have hbkey := (sameKey_iff _ _ _).mp hbT
        rcases hhead b hb with h1 | h1
        · exact h1 (hxkey.1.trans hbkey.1.symm)
        · exact h1 (hxkey.2.trans hbkey.2.symm)
      have hmapxs : xs.map (fun y => if sameKey r.productID r.pcs y then r else y) =
          xs.map id := List.map_congr_left (fun b hb => by simp [htfalse b hb])
      rw [List.map_cons, if_pos hx, hmapxs, List.map_id, List.filter_cons,
        if_pos (self_sameKey r),
        List.filter_eq_nil_iff.mpr (fun a ha => by simp [htfalse a ha])]
    · have hxf : sameKey r.productID r.pcs x = false := Bool.eq_false_iff.mpr hx
      have hany2 : xs.any (sameKey r.productID r.pcs) = true := by
        rw [List.any_cons, hxf] at hany
        simpa using hany
      have hfx : (if sameKey r.productID r.pcs x = true then r else x) = x := by
        simp [hxf]
      rw [List.map_cons, hfx, List.filter_cons, if_neg (by simp [hxf])]
      exact ih htail hany2

/-- On a key-unique store, after an upsert the rows under the upserted key
are exactly the upserted row. -/
theorem filter_upsertRow (store : List Row) (r : Row) (h : keyUnique store) :
    (upsertRow store r).filter (sameKey r.productID r.pcs) = [r] := by
  by_cases hany : store.any (sameKey r.productID r.pcs) = true
  · rw [upsertRow, if_pos hany]
    exact filter_map_upsert r store h hany
  · rw [upsertRow, if_neg hany, List.filter_append]
    have hfs : store.filter (sameKey r.productID r.pcs) = [] := by
      apply List.filter_eq_nil_iff.mpr
      intro a ha
      have hf := List.any_eq_false.mp (Bool.eq_false_iff.mpr hany) a ha
      simp [hf]
    rw [hfs, List.filter_cons, if_pos (self_sameKey r)]
    simp

/-- Upserting preserves key uniqueness. -/
theorem keyUnique_upsertRow (store : List Row) (r : Row) (h : keyUnique store) :
    keyUnique (upsertRow store r) := by
  by_cases hany : store.any (sameKey r.productID r.pcs) = true
  · rw [upsertRow, if_pos hany, keyUnique, List.pairwise_map]
    have hkey : ∀ x : Row,
        (if sameKey r.productID r.pcs x = true then r else x).productID = x.productID ∧
        (if sameKey r.productID r.pcs x = true then r else x).pcs = x.pcs := by
      intro x
      by_cases hx : sameKey r.productID r.pcs x = true
      · obtain ⟨h1, h2⟩ := (sameKey_iff _ _ _).mp hx
        simp [hx, h1, h2]
      · simp [hx]
    refine h.imp ?_
    intro a b hab
    rw [(hkey a).1, (hkey b).1, (hkey a).2, (hkey b).2]
    exact hab
  · rw [upsertRow, if_neg hany, keyUnique, List.pairwise_append]
    refine ⟨h, List.pairwise_singleton _ _, ?_⟩
    intro a ha b hb
    rw [List.mem_singleton] at hb
    subst hb
    have hf := List.any_eq_false.mp (Bool.eq_false_iff.mpr hany) a ha
    by_contra hc
    push_neg at hc
    exact hf ((sameKey_iff _ _ _).mpr ⟨hc.1, hc.2⟩)

/-- Claim C6: the persistence upsert is idempotent on the composite key:
after inserting a record and then a second record with the same
`(productKey, packSize)` key into a key-unique store, exactly one row
carries that key, and it holds the second write's field values (with its
availability string parsed, a failure coerced to `0`). -/
theorem upsert_idempotent_composite_key (store : List Row) (p1 p2 : SaveParams)
    (s1 s2 : List Char) (hstore : keyUnique store)
    (_hpid : p1.productID = p2.productID) (_hpcs : p1.pcs = p2.pcs) :
    (saveToDatabase (saveToDatabase store p1 s1) p2 s2).filter
        (sameKey p2.productID p2.pcs) =
      [⟨p2.nmID, p2.vendorCode, p2.pcs, p2.productID, s2,
        (atoiL p2.availableCountStr).getD 0, p2.cost⟩] := by
  have h1 : keyUnique (saveToDatabase store p1 s1) :=
    keyUnique_upsertRow store _ hstore
  exact filter_upsertRow (saveToDatabase store p1 s1)
    ⟨p2.nmID, p2.vendorCode, p2.pcs, p2.productID, s2,
      (atoiL p2.availableCountStr).getD 0, p2.cost⟩ h1

/-- Witness for C6: a concrete double insert under key `("k", 2)` leaves
one row with the second write's values. -/
theorem upsert_idempotent_composite_key_witness :
    (saveToDatabase (saveToDatabase [] ⟨1, ['a'], 2, ['k'], ['5'], 10⟩ ['x'])
        ⟨9, ['b'], 2, ['k'], ['7'], 99⟩ ['y']).filter (sameKey ['k'] 2) =
      [⟨9, ['b'], 2, ['k'], ['y'], 7, 99⟩] := by
  have h := upsert_idempotent_composite_key [] ⟨1, ['a'], 2, ['k'], ['5'], 10⟩
    ⟨9, ['b'], 2, ['k'], ['7'], 99⟩ ['x'] ['y'] (by simp [keyUnique]) rfl rfl
  exact h.trans (by decide)

/-- Claim C10: when the availability string does not parse as an integer,
`saveToDatabase` still writes the row — the count is coerced to `0`, every
other field is kept, and the row is present in the resulting store. -/
theorem save_malformed_count_persists (store : List Row) (p : SaveParams)
    (sku : List Char) (h : atoiL p.availableCountStr = none) :
    saveToDatabase store p sku =
      upsertRow store ⟨p.nmID, p.vendorCode, p.pcs, p.productID, sku, 0, p.cost⟩ ∧
    (⟨p.nmID, p.vendorCode, p.pcs, p.productID, sku, 0, p.cost⟩ : Row) ∈
      saveToDatabase store p sku := by
  have h1 : saveToDatabase store p sku =
      upsertRow store ⟨p.nmID, p.vendorCode, p.pcs, p.productID, sku, 0, p.cost⟩ := by
    simp [saveToDatabase, h]
  refine ⟨h1, ?_⟩
  rw [h1]
  exact self_mem_upsertRow _ _

/-- Witness for C10: the malformed count string `"ab"` still yields a
persisted row with count `0` and the other fields intact. -/
theorem save_malformed_count_persists_witness :
    saveToDatabase [] ⟨5, ['v'], 2, ['k'], ['a', 'b'], 77⟩ ['s'] =
      upsertRow [] ⟨5, ['v'], 2, ['k'], ['s'], 0, 77⟩ ∧
    (⟨5, ['v'], 2, ['k'], ['s'], 0, 77⟩ : Row) ∈
      saveToDatabase [] ⟨5, ['v'], 2, ['k'], ['a', 'b'], 77⟩ ['s'] :=
  save_malformed_count_persists [] ⟨5, ['v'], 2, ['k'], ['a', 'b'], 77⟩ ['s']
    (by decide)

/-- Any terminal response at offset `n` lets the pagination loop finish
within `n + 1` further requests, from any intermediate state. -/
theorem fetchGo_terminates (oracle : Nat → Option FetchResp) :
    ∀ n idx acc, isTerminalResp (oracle (idx + n)) = true →
      ∃ cards, fetchGo oracle idx (n + 1) acc = some cards := by
  intro n
  induction n with
  | zero =>
    intro idx acc hterm
    rw [Nat.add_zero] at hterm
    cases horacle : oracle idx with
    | none => exact ⟨acc, by simp [fetchGo, horacle]⟩
    | some resp =>
      rw [horacle] at hterm
      by_cases hempty : resp.cards.isEmpty = true
      · exact ⟨acc, by simp [fetchGo, horacle, hempty]⟩
      · have hcur : (resp.cursor.updatedAt.isEmpty || resp.cursor.nmID == 0) = true := by
          have hterm2 : ((resp.cards.isEmpty ||
              resp.cursor.updatedAt.isEmpty) || resp.cursor.nmID == 0) = true := hterm
          rw [Bool.or_assoc] at hterm2
          rw [Bool.eq_false_iff.mpr hempty, Bool.false_or] at hterm2
          exact hterm2
        refine ⟨acc ++ resp.cards, ?_⟩
        simp only [fetchGo, horacle]
        rw [if_neg (by simp [hempty]), if_pos hcur]
  | succ m ih =>
    intro idx acc hterm
    cases horacle : oracle idx with
    | none => exact ⟨acc, by simp [fetchGo, horacle]⟩
    | some resp =>
      by_cases hempty : resp.cards.isEmpty = true
      · exact ⟨acc, by simp [fetchGo, horacle, hempty]⟩
      · by_cases hcur : (resp.cursor.updatedAt.isEmpty || resp.cursor.nmID == 0) = true
        · refine ⟨acc ++ resp.cards, ?_⟩
          simp only [fetchGo, horacle]
          rw [if_neg (by simp [hempty]), if_pos hcur]
        · have hterm2 : isTerminalResp (oracle ((idx + 1) + m)) = true := by
            have : (idx + 1) + m = idx + (m + 1) := by omega
            rw [this]
            exact hterm
          obtain ⟨cards, hc⟩ := ih (idx + 1) (acc ++ resp.cards) hterm2
          refine ⟨cards, ?_⟩
          simp only [fetchGo, horacle]
          rw [if_neg (by simp [hempty]), if_neg hcur]
          exact hc

/-- Claim C7: the Catalog Fetcher's pagination terminates for every
response sequence that eventually yields an error, an empty card batch, or
a cursor with empty timestamp or zero `nmID` (within one request past the
first terminal response); and a transport/parse error at any point stops
the loop and returns exactly the cards accumulated so far instead of
failing. -/
theorem fetch_terminates_and_keeps_accumulated (oracle : Nat → Option FetchResp) (n : Nat)
    (hterm : isTerminalResp (oracle n) = true) :
    (∃ cards, fetchAllCards oracle (n + 1) = some cards) ∧
    (∀ idx fuel acc, oracle idx = none →
      fetchGo oracle idx (fuel + 1) acc = some acc) := by
  constructor
  · have h0 : isTerminalResp (oracle (0 + n)) = true := by
      rw [Nat.zero_add]
      exact hterm
    exact fetchGo_terminates oracle n 0 [] h0
  · intro idx fuel acc herr
    simp [fetchGo, herr]

/-- Witness for C7: with an oracle that errors immediately, pagination
terminates at once with the empty card list. -/
theorem fetch_terminates_and_keeps_accumulated_witness :
    fetchAllCards (fun _ => none) 1 = some [] :=
  (fetch_terminates_and_keeps_accumulated (fun _ => none) 0 (by decide)).2 0 0 [] rfl

/-- `dropWhile` skips a whole prefix whose elements all satisfy the
predicate. -/
theorem dropWhile_append_all (p : Char → Bool) (xs ys : List Char)
    (h : ∀ c ∈ xs, p c = true) : (xs ++ ys).dropWhile p = ys.dropWhile p := by
  induction xs with
  | nil => simp
  | cons a l ih =>
    rw [List.cons_append, List.dropWhile_cons, if_pos (h a (by simp))]
    exact ih (fun c hc => h c (by simp [hc]))

/-- A nonempty digit string is nonempty. -/
theorem allDigits_ne_nil (l : List Char) (h : allDigits l = true) : l ≠ [] := by
  intro he
  subst he
  simp [allDigits] at h

/-- Cutting at the last underscore removes exactly an underscore-free
suffix together with its separator. -/
theorem bagBaseKeyL_append (p d : List Char) (hd : ∀ c ∈ d, c ≠ '_') :
    bagBaseKeyL (p ++ '_' :: d) = p := by
  unfold bagBaseKeyL
  have hrev : (p ++ '_' :: d).reverse = d.reverse ++ '_' :: p.reverse := by
    simp [List.reverse_append]
  rw [hrev, dropWhile_append_all _ _ _ (fun c hc => by
    simp only [List.mem_reverse] at hc
    simp [hd c hc])]
  rw [List.dropWhile_cons, if_neg (by simp)]
  simp

/-- A vendor code matching the `bubblebags_1...` pattern splits as a
nonempty digit suffix after a final underscore. -/
theorem matchBubblebags1L_decomp (l : List Char) (h : matchBubblebags1L l = true) :
    ∃ p d, l = p ++ '_' :: d ∧ d ≠ [] ∧ (∀ c ∈ d, c.isDigit = true) := by
  unfold matchBubblebags1L at h
  rw [Bool.and_eq_true] at h
  obtain ⟨h1, h2⟩ := h
  rw [Bool.and_eq_true] at h2
  obtain ⟨h3, h4⟩ := h2
  have htake : l.take bubPre.length = bubPre := by simpa using h1
  split at h4
  case h_2 => simp at h4
  case h_1 c ds2 heq =>
    refine ⟨bubPre ++ (l.drop bubPre.length).takeWhile (fun c => c.isDigit), ds2, ?_, ?_, ?_⟩
    · conv =>
        lhs
        rw [← List.take_append_drop bubPre.length l]
      rw [htake, List.append_assoc]
      congr 1
      rw [← heq]
      exact (List.takeWhile_append_dropWhile (fun c => c.isDigit)
        (l.drop bubPre.length)).symm
    · exact allDigits_ne_nil ds2 h4
    · exact fun c hc => List.all_eq_true.mp (allDigits_parts ds2 h4).2 c hc

/-- Claim C4: for every vendor code matching the bag (`bubblebags_1...`)
family pattern, the derived reference-table lookup key — the
`LastIndex`-truncation used by `scrapeProductData` — equals the vendor
code with its final `_<digits>` suffix removed, so the key is independent
of the pack-size suffix. -/
theorem bag_lookup_key_drops_suffix (l : List Char) (h : matchBubblebags1L l = true) :
    ∃ p d, l = p ++ '_' :: d ∧ d ≠ [] ∧ (∀ c ∈ d, c.isDigit = true) ∧
      bagBaseKeyL l = p := by
  obtain ⟨p, d, hl, hne, hdig⟩ := matchBubblebags1L_decomp l h
  refine ⟨p, d, hl, hne, hdig, ?_⟩
  rw [hl]
  refine bagBaseKeyL_append p d (fun c hc he => ?_)
  have hdc := hdig c hc
  rw [he] at hdc
  exact absurd hdc (by decide)

/-- Witness for C4 at `"bubblebags_19999_10"`: the pattern matches, the
decomposition exists, and the derived key is concretely
`"bubblebags_19999"`. -/
theorem bag_lookup_key_drops_suffix_witness :
    (∃ p d, bagVC = p ++ '_' :: d ∧ d ≠ [] ∧ (∀ c ∈ d, c.isDigit = true) ∧
      bagBaseKeyL bagVC = p) ∧
    bagBaseKeyL bagVC =
      ['b', 'u', 'b', 'b', 'l', 'e', 'b', 'a', 'g', 's', '_', '1', '9', '9', '9', '9'] :=
  ⟨bag_lookup_key_drops_suffix bagVC (by decide), by decide⟩

/-- The cost of the price string `"0"` is `0` for every pack size. -/
theorem convMul_zero (n : ℤ) : convertAndMultiplyL ['0'] (intToDec n) = some 0 := by
  have h0 : parseDecL ['0'] = some (mkRat 0 1) := by decide
  have hc : ratCeil (mkRat 0 1) = 0 := by decide
  simp only [convertAndMultiplyL, h0, atoiL_intToDec]
  rw [hc, zero_mul]

/-- Amended claim C2: for every fixed-price-family card whose `nmID` has a
table entry `(price, quantity)` and which resolves to exactly one SKU, the
pipeline persists a row with `cost = price * packSize` (plain integer
multiply) and `available_count = quantity`. -/
theorem fp_entry_persists_cost (cfg : Cfg) (env : Env)
    (skuMap : ℤ → List (List Char)) (store : List Row) (cache : Cache)
    (card : Card) (price qty : ℤ) (sku : List Char)
    (hfp : cfg.fpMatchers.any (fun m => m card.vendorCode) = true)
    (hdl : env.download card.nmID = some ⟨price, qty⟩)
    (hsku : skuMap card.nmID = [sku]) :
    processCard cfg env skuMap store cache card =
      .next (upsertRow store ⟨card.nmID, card.vendorCode, fpPcs card.vendorCode,
        intToDec card.nmID, sku, qty, price * fpPcs card.vendorCode⟩) cache := by
  simp only [processCard, hfp, if_true, hdl, hsku]
  simp [saveToDatabase, atoiL_intToDec]

/-- Witness for the amended C2 at the spec's end-to-end scenario:
`nmID = 500`, table entry `(40, 12)`, pack size `3` parsed from
`"soil_500_3"` — the persisted row has cost `120` and count `12`. -/
theorem fp_entry_persists_cost_witness :
    processCard cfgPcs envFp (extractSKUs [cardFpOneSku]) [] [] cardFpOneSku =
      .next [⟨500, soilVC, 3, ['5', '0', '0'], ['s', '1'], 12, 120⟩] [] :=
  (fp_entry_persists_cost cfgPcs envFp (extractSKUs [cardFpOneSku]) [] []
    cardFpOneSku 40 12 ['s', '1'] (by decide) (by decide) (by decide)).trans
    (by decide)

/-- Counterexample to C2 as stated: a fixed-price card whose `nmID` is in
the table but which has zero SKUs is skipped — the run ends with an empty
store, so no row with `cost = price * packSize` is persisted. -/
theorem fp_entry_zero_sku_no_row :
    cfgPcs.fpMatchers.any (fun m => m cardFpNoSku.vendorCode) = true ∧
    envFp.download cardFpNoSku.nmID = some ⟨40, 12⟩ ∧
    runPipeline cfgPcs envFp [cardFpNoSku] = some [] :=
  ⟨by decide, by decide, by decide⟩

/-- Claim C5: when a card does not resolve to exactly one SKU, the run
halts fatally (`panic`) if the card is of a legacy (vendor-code-pattern)
family, but merely skips the card and continues with the rest if it is of
the fixed-price family with a table entry. -/
theorem sku_cardinality_severity (cfg : Cfg) (env : Env)
    (skuMap : ℤ → List (List Char)) (store : List Row) (cache : Cache)
    (card : Card) (rest : List Card)
    (hsku : (skuMap card.nmID).length ≠ 1) :
    (cfg.fpMatchers.any (fun m => m card.vendorCode) = false →
      cfg.vcMatchers.any (fun m => m card.vendorCode) = true →
      runCards cfg env skuMap (card :: rest) store cache = none) ∧
    (∀ row : DownloadRow, cfg.fpMatchers.any (fun m => m card.vendorCode) = true →
      env.download card.nmID = some row →
      runCards cfg env skuMap (card :: rest) store cache =
        runCards cfg env skuMap rest store cache) := by
  constructor
  · intro hfp hvc
    have hstep : processCard cfg env skuMap store cache card = .halt := by
      simp only [processCard, hfp, hvc]
      simp [hsku]
    simp [runCards, hstep]
  · intro row hfp hdl
    have hstep : processCard cfg env skuMap store cache card = .next store cache := by
      simp only [processCard, hfp, hdl]
      simp [hsku]
    simp [runCards, hstep]

/-- Witness for C5: a legacy `box` card with zero SKUs aborts the run,
while a fixed-price card with zero SKUs and a table entry leaves the run
equal to processing the remaining cards. -/
theorem sku_cardinality_severity_witness :
    runCards cfgPcs envNone (extractSKUs [cardBoxNoSku]) [cardBoxNoSku] [] [] = none ∧
    runCards cfgPcs envFp (extractSKUs [cardFpNoSku]) [cardFpNoSku] [] [] =
      runCards cfgPcs envFp (extractSKUs [cardFpNoSku]) [] [] [] :=
  ⟨(sku_cardinality_severity cfgPcs envNone (extractSKUs [cardBoxNoSku]) [] []
      cardBoxNoSku [] (by decide)).1 (by decide) (by decide),
   (sku_cardinality_severity cfgPcs envFp (extractSKUs [cardFpNoSku]) [] []
      cardFpNoSku [] (by decide)).2 ⟨40, 12⟩ (by decide) (by decide)⟩

/-- Amended claim C8: on the legacy path the third vendor-code segment is
parsed as a pack size only when `UsePcs` is enabled (default `1` when
disabled, absent, or unparseable), but on the fixed-price path the third
segment is parsed regardless of `UsePcs`. -/
theorem pack_size_gating (u : Bool) (vc : List Char) :
    (legacyPcs false vc = 1) ∧
    ((splitU vc).length ≤ 2 → legacyPcs u vc = 1 ∧ fpPcs vc = 1) ∧
    (atoiL ((splitU vc).getD 2 []) = none → legacyPcs u vc = 1 ∧ fpPcs vc = 1) ∧
    (∀ v : ℤ, 2 < (splitU vc).length → atoiL ((splitU vc).getD 2 []) = some v →
      legacyPcs true vc = v ∧ fpPcs vc = v) := by
  refine ⟨by simp [legacyPcs], ?_, ?_, ?_⟩
  · intro h
    have h2 : ¬ 2 < (splitU vc).length := by omega
    exact ⟨by unfold legacyPcs; rw [if_neg (fun hc => h2 hc.1)],
      by unfold fpPcs; rw [if_neg h2]⟩
  · intro h
    constructor
    · unfold legacyPcs
      by_cases h2 : 2 < (splitU vc).length ∧ u = true
      · rw [if_pos h2, h]
      · rw [if_neg h2]
    · unfold fpPcs
      by_cases h2 : 2 < (splitU vc).length
      · rw [if_pos h2, h]
      · rw [if_neg h2]
  · intro v hlen hat
    exact ⟨by unfold legacyPcs; rw [if_pos (And.intro hlen rfl), hat],
      by unfold fpPcs; rw [if_pos hlen, hat]⟩

/-- Witness for the amended C8 at `"soil_500_3"`: the third segment parses
to `3` on both paths when applicable. -/
theorem pack_size_gating_witness :
    legacyPcs true soilVC = 3 ∧ fpPcs soilVC = 3 :=
  (pack_size_gating true soilVC).2.2.2 3 (by decide) (by decide)

/-- Counterexample to C8 as stated: with `UsePcs = false` a fixed-price
card still gets its third segment parsed — the persisted row has pack size
`3` and cost `40 * 3 = 120`, not the claimed default of `1`. -/
theorem fp_pcs_ignores_use_pcs :
    cfgNoPcs.usePcs = false ∧
    runPipeline cfgNoPcs envFp [cardFpOneSku] =
      some [⟨500, soilVC, 3, ['5', '0', '0'], ['s', '1'], 12, 120⟩] :=
  ⟨rfl, by decide⟩

/-- Amended claim C9: a fixed-price card whose `nmID` is absent from the
price/quantity table is logged and skipped with no row persisted, and the
pipeline continues; but a bag-family card whose derived key is absent from
the URL lookup table is NOT skipped — the scrape step reports
`price = "0"`, `availableCount = "0"` without an error, so the pipeline
persists a row with cost `0` and availability `0` (and caches the zero
data), then continues. -/
theorem missing_lookup_behavior (cfg : Cfg) (env : Env)
    (skuMap : ℤ → List (List Char)) (store : List Row) (cache : Cache)
    (card : Card) (sku : List Char) :
    (cfg.fpMatchers.any (fun m => m card.vendorCode) = true →
      env.download card.nmID = none →
      processCard cfg env skuMap store cache card = .next store cache) ∧
    (cfg.fpMatchers.any (fun m => m card.vendorCode) = false →
      cfg.vcMatchers.any (fun m => m card.vendorCode) = true →
      skuMap card.nmID = [sku] →
      matchBubblebags1L card.vendorCode = true →
      env.urlMap (bagBaseKeyL card.vendorCode) = none →
      cacheFind cache ((splitU card.vendorCode).getD 1 []) = none →
      2 ≤ (splitU card.vendorCode).length →
      processCard cfg env skuMap store cache card =
        .next (upsertRow store ⟨card.nmID, card.vendorCode,
            legacyPcs cfg.usePcs card.vendorCode,
            (splitU card.vendorCode).getD 1 [], sku, 0, 0⟩)
          (((splitU card.vendorCode).getD 1 [], (['0'], ['0'])) :: cache)) := by
  constructor
  · intro hfp hdl
    simp only [processCard, hfp, if_true, hdl]
  · intro hfp hvc hsku hbag hurl hcache hlen
    have hscrape : scrapeProductData env card.vendorCode = some (['0'], ['0']) := by
      simp only [scrapeProductData, hbag, if_true, hurl]
    have hlt : ¬ ((splitU card.vendorCode).length < 2) := by omega
    have hconv : convertAndMultiplyL ['0']
        (intToDec (legacyPcs cfg.usePcs card.vendorCode)) = some 0 := convMul_zero _
    have hz : atoiL ['0'] = some 0 := by decide
    simp only [processCard, hfp, hvc, hsku, if_neg hlt, hcache, hscrape, hconv,
      saveToDatabase, hz]
    simp

/-- Witness for the amended C9: a fixed-price card absent from the table
is skipped with the store unchanged, while a bag-family card absent from
the URL table yields a persisted zero row and a cache entry. -/
theorem missing_lookup_behavior_witness :
    processCard cfgPcs envNone (extractSKUs [cardFpNoSku]) [] [] cardFpNoSku =
      .next [] [] ∧
    processCard cfgPcs envNone (extractSKUs [cardBagOneSku]) [] [] cardBagOneSku =
      .next [⟨700, bagVC, 10, ['1', '9', '9', '9', '9'], ['s', 'k'], 0, 0⟩]
        [(['1', '9', '9', '9', '9'], (['0'], ['0']))] :=
  ⟨(missing_lookup_behavior cfgPcs envNone (extractSKUs [cardFpNoSku]) [] []
      cardFpNoSku ['s', 'k']).1 (by decide) rfl,
   ((missing_lookup_behavior cfgPcs envNone (extractSKUs [cardBagOneSku]) [] []
      cardBagOneSku ['s', 'k']).2 (by decide) (by decide) (by decide) (by decide)
      rfl rfl (by decide)).trans (by decide)⟩

/-- Counterexample to C9 as stated: for a bag-family card whose derived
key is missing from the URL table, the pipeline does NOT skip the product —
it persists a row (with zero cost and zero availability). -/
theorem bag_missing_url_persists_zero_row :
    matchBubblebags1L bagVC = true ∧
    envNone.urlMap (bagBaseKeyL bagVC) = none ∧
    runPipeline cfgPcs envNone [cardBagOneSku] =
      some [⟨700, bagVC, 10, ['1', '9', '9', '9', '9'], ['s', 'k'], 0, 0⟩] :=
  ⟨by decide, rfl, by decide⟩
